import Mathlib

/-!
Verification development for the NodeInDepth repository.

The definitions below are shallow embeddings, translated from the source
scripts of the repository:

* a model of the JavaScript string primitives used by the command-file
  watcher (`file-system/fs-project/app.js`): `trim`, `includes`,
  `substring`, `indexOf`, `split`;
* the command dispatch and validation logic of the change handler, and the
  four file operations (`createFile`, `deleteFile`, `renameFile`,
  `addToFile`) over an association-list file-system model;
* the buffer-allocation and `FileHandle.read` model used by the handler;
* the producer loops of `streams/writeMany.js` and
  `streams/writable_stream.js`, with `stream.write` return values given by
  an oracle and `'drain'` events delivered externally;
* the listener-wrapping and error-handling machinery of
  `emitters/production-example.js`;
* the import tables of all scripts in the repository.
-/

namespace NodeInDepth

/-! ## JavaScript string primitives -/

/-- Whitespace characters removed by JavaScript `String.prototype.trim`
(the ASCII ones; the scripts' inputs contain no exotic Unicode spaces). -/
def isJsSpace (c : Char) : Bool :=
  c == ' ' || c == '\t' || c == '\n' || c == '\r' || c == '\x0b' || c == '\x0c'

/-- JavaScript `s.trim()`: strip whitespace from both ends. -/
def jsTrim (s : String) : String :=
  ⟨((s.data.dropWhile isJsSpace).reverse.dropWhile isJsSpace).reverse⟩

/-- Does `sub` occur at the head of `s`?  (List-level helper.) -/
def prefAt : List Char → List Char → Bool
  | [], _ => true
  | _ :: _, [] => false
  | a :: as, b :: bs => a == b && prefAt as bs

/-- Does `sub` occur anywhere in `s`?  (List-level helper.) -/
def strIncludes (sub : List Char) : List Char → Bool
  | [] => prefAt sub []
  | c :: rest => prefAt sub (c :: rest) || strIncludes sub rest

/-- JavaScript `s.includes(sub)`: substring search. -/
def jsIncludes (s sub : String) : Bool :=
  strIncludes sub.data s.data

/-- JavaScript `s.substring(start)`: the suffix of `s` from index `start`
(empty when `start` is past the end). -/
def jsSubstringFrom (s : String) (start : Nat) : String :=
  ⟨s.data.drop start⟩

/-- JavaScript `s.substring(0, stop)`: the first `stop` characters. -/
def jsSubstringUpTo (s : String) (stop : Nat) : String :=
  ⟨s.data.take stop⟩

/-- Helper for `jsIndexOfChar`: index of the first occurrence of `c`. -/
def idxAux (c : Char) : List Char → Nat → Option Nat
  | [], _ => none
  | a :: rest, i => if a == c then some i else idxAux c rest (i + 1)

/-- JavaScript `s.indexOf(c)` for a single character, with `none`
standing for the sentinel `-1`. -/
def jsIndexOfChar (s : String) (c : Char) : Option Nat :=
  idxAux c s.data 0

/-- Splitting on the leftmost non-overlapping occurrences of a separator,
accumulating the current fragment in reverse.  (List-level helper for
JavaScript `s.split(sep)` with a non-empty separator.  The `Nat` is
structural-recursion fuel; every call site supplies at least the length
of the scanned list plus one, which is always enough because each step
consumes at least one character.) -/
def splitGo (sep : List Char) : Nat → List Char → List Char → List (List Char)
  | _, [], cur => [cur.reverse]
  | 0, s, cur => [cur.reverse ++ s]
  | fuel + 1, c :: rest, cur =>
    if prefAt sep (c :: rest) && !sep.isEmpty then
      cur.reverse :: splitGo sep fuel (List.drop sep.length (c :: rest)) []
    else
      splitGo sep fuel rest (c :: cur)

/-- JavaScript `s.split(sep)` for a non-empty separator string. -/
def jsSplit (s sep : String) : List String :=
  (splitGo sep.data (s.data.length + 1) s.data []).map (fun l => ⟨l⟩)

/-! ## The command-file change handler (`file-system/fs-project/app.js`) -/

/-- Source constant `CREATE_FILE`. -/
def CREATE_FILE : String := "create a file"

/-- Source constant `DELETE_FILE`. -/
def DELETE_FILE : String := "delete a file"

/-- Source constant `RENAME_FILE`. -/
def RENAME_FILE : String := "rename the file"

/-- Source constant `ADD_TO_FILE`. -/
def ADD_TO_FILE : String := "add to the file"

/-- The filesystem operations the change handler can request. -/
inductive FsOp
  | create (path : String)
  | delete (path : String)
  | rename (oldPath newPath : String)
  | add (path content : String)
deriving DecidableEq, Repr

/-- One observable step of the change handler: either a filesystem
operation, or a `console.log` of a validation error. -/
inductive Action
  | op (o : FsOp)
  | log (msg : String)
deriving DecidableEq, Repr

/-- Is this action a file operation (as opposed to an error log)? -/
def Action.isOp : Action → Bool
  | Action.op _ => true
  | Action.log _ => false

/-- Argument extraction shared by all four command blocks:
`commandText.substring(PHRASE.length + 1).trim()`. -/
def argText (commandText phrase : String) : String :=
  jsTrim (jsSubstringFrom commandText (phrase.length + 1))

/-- The rename command block (source lines 84–106).  Input is
`commandText.substring(RENAME_FILE.length + 1).trim()`.  The `Bool` is
`true` when the block hits one of its `return` statements, which exits
the whole change handler. -/
def renameBlock (afterCommand : String) : List Action × Bool :=
  match jsIndexOfChar afterCommand ' ' with
  | none => ([Action.log "Error: Both old and new file paths are required."], true)
  | some spaceIndex =>
    let oldFilePath := jsTrim (jsSubstringUpTo afterCommand spaceIndex)
    let afterOldPath := jsTrim (jsSubstringFrom afterCommand (spaceIndex + 1))
    if !jsIncludes afterOldPath "to" then
      ([Action.log "Error: \"to\" keyword is required between old and new file paths."], true)
    else
      match (jsSplit afterOldPath "to")[1]? with
      | none => ([Action.log "Error: New file path is required after \"to\"."], true)
      | some part =>
        let newFilePath := jsTrim part
        if newFilePath = "" then
          ([Action.log "Error: New file path is required after \"to\"."], true)
        else
          ([Action.op (FsOp.rename oldFilePath newFilePath)], false)

/-- The add-to-file command block (source lines 110–132).  Input is
`commandText.substring(ADD_TO_FILE.length + 1).trim()`. -/
def addBlock (afterCommand : String) : List Action × Bool :=
  match jsIndexOfChar afterCommand ' ' with
  | none => ([Action.log "Error: Both file path and content are required."], true)
  | some spaceIndex =>
    let filePath := jsTrim (jsSubstringUpTo afterCommand spaceIndex)
    let afterPath := jsTrim (jsSubstringFrom afterCommand (spaceIndex + 1))
    if !jsIncludes afterPath "this content:" then
      ([Action.log "Error: \"this content:\" keyword is required before the content."], true)
    else
      match (jsSplit afterPath "this content:")[1]? with
      | none => ([Action.log "Error: Content is required after \"this content:\"."], true)
      | some part =>
        let content := jsTrim part
        if content = "" then
          ([Action.log "Error: Content is required after \"this content:\"."], true)
        else
          ([Action.op (FsOp.add filePath content)], false)

/-- The create block of the change handler (source lines 68–73). -/
def pcCreateActs (commandText : String) : List Action :=
  if jsIncludes commandText CREATE_FILE then
    [Action.op (FsOp.create (argText commandText CREATE_FILE))]
  else []

/-- The delete block of the change handler (source lines 77–81). -/
def pcDeleteActs (commandText : String) : List Action :=
  if jsIncludes commandText DELETE_FILE then
    [Action.op (FsOp.delete (argText commandText DELETE_FILE))]
  else []

/-- The rename block of the change handler, guarded by its
`includes(RENAME_FILE)` test (source lines 84–106). -/
def pcRenamePart (commandText : String) : List Action × Bool :=
  if jsIncludes commandText RENAME_FILE then
    renameBlock (argText commandText RENAME_FILE)
  else ([], false)

/-- The add-to-file block of the change handler, guarded by its
`includes(ADD_TO_FILE)` test; it is skipped entirely when an early
`return` of the rename block already exited the handler
(source lines 110–132). -/
def pcAddActs (commandText : String) : List Action :=
  if (pcRenamePart commandText).snd then []
  else if jsIncludes commandText ADD_TO_FILE then
    (addBlock (argText commandText ADD_TO_FILE)).fst
  else []

/-- The body of the change handler after the command text has been read
and trimmed: the four sequential `if (commandText.includes(...))` blocks.
A `return` inside the rename block skips the add-to-file block. -/
def processCommand (commandText : String) : List Action :=
  pcCreateActs commandText ++ pcDeleteActs commandText ++
    (pcRenamePart commandText).fst ++ pcAddActs commandText

/-- The whole change handler on a given raw file content:
`const commandText = buff.toString('utf-8').trim();` then the dispatch. -/
def handleChange (fileContent : String) : List Action :=
  processCommand (jsTrim fileContent)

/-! ## The four file operations over a file-system model -/

/-- File-system model: an association list from paths to contents. -/
abbrev FS := List (String × String)

/-- Lookup used to model the existence-probe `fs.open(path, 'r')`:
`some` content when the open succeeds, `none` when it throws. -/
def fsLookup : FS → String → Option String
  | [], _ => none
  | (p, c) :: rest, q => if p == q then some c else fsLookup rest q

/-- Create or overwrite a file (models `fs.open(path, 'w')` creating an
empty file, and also rewriting a path to given contents). -/
def fsSet : FS → String → String → FS
  | [], p, v => [(p, v)]
  | (q, c) :: rest, p, v => if q == p then (p, v) :: rest else (q, c) :: fsSet rest p v

/-- Remove a file (models `fs.unlink`). -/
def fsRemove : FS → String → FS
  | [], _ => []
  | (q, c) :: rest, p => if q == p then fsRemove rest p else (q, c) :: fsRemove rest p

/-- `createFile` (source lines 149–162): probe with `open(path, 'r')`;
if the probe succeeds only log, otherwise create via `open(path, 'w')`. -/
def createFile (fs : FS) (path : String) : FS × List String :=
  match fsLookup fs path with
  | some _ => (fs, [s!"The file at path {path} already exists."])
  | none => (fsSet fs path "", ["A new file was created successfully."])

/-- `deleteFile` (source lines 164–175): probe, then `fs.unlink`;
on probe failure log "does not exist" and leave the file system alone. -/
def deleteFile (fs : FS) (path : String) : FS × List String :=
  match fsLookup fs path with
  | some _ => (fsRemove fs path, [s!"The file at path {path} was deleted successfully."])
  | none => (fs, [s!"The file at path {path} does not exist."])

/-- `renameFile` (source lines 177–188): probe the old path, then
`fs.rename`; on probe failure log and leave the file system alone. -/
def renameFile (fs : FS) (oldPath newPath : String) : FS × List String :=
  match fsLookup fs oldPath with
  | some content =>
    (fsSet (fsRemove fs oldPath) newPath content,
     [s!"The file at path {oldPath} was renamed to {newPath} successfully."])
  | none => (fs, [s!"The file at path {oldPath} does not exist."])

/-- `addToFile` (source lines 190–201): probe, then `fs.appendFile`;
on probe failure log and leave the file system alone. -/
def addToFile (fs : FS) (path content : String) : FS × List String :=
  match fsLookup fs path with
  | some existing =>
    (fsSet fs path (existing ++ content),
     [s!"Content was added to the file at path {path} successfully."])
  | none => (fs, [s!"The file at path {path} does not exist."])

/-! ## Buffer allocation and the handler's full-file read -/

/-- `Buffer.alloc(n)`: a zero-filled byte buffer of `n` bytes. -/
def bufAlloc (n : Nat) : List Nat :=
  List.replicate n 0

/-- `(await commandFileHandler.stat()).size` for a file with the given
contents. -/
def statSize (content : List Nat) : Nat :=
  content.length

/-- The buffer the change handler allocates:
`const buff = Buffer.alloc(size);` with `size` the file's current size. -/
def handlerBuffer (content : List Nat) : List Nat :=
  bufAlloc (statSize content)

/-- `FileHandle.read(buff, offset, length, position)`: copy up to
`length` bytes of the file, starting at file position `position`, into
`buff` starting at buffer offset `offset`; the rest of `buff` is kept. -/
def fhRead (content buff : List Nat) (offset length position : Nat) : List Nat :=
  let avail := content.length - position
  let space := buff.length - offset
  let bytesRead := min (min length space) avail
  buff.take offset ++ (content.drop position).take bytesRead ++ buff.drop (offset + bytesRead)

/-- The read step of the change handler, for a file with the given
contents while the handle's implicit file position is `currentPos`:
`size = stat().size; buff = Buffer.alloc(size); length = buff.byteLength;
offset = 0; position = 0; read(buff, offset, length, position)`.
The explicit `position = 0` means `currentPos` is never consulted. -/
def handlerReadStep (content : List Nat) (currentPos : Nat) : List Nat :=
  let size := statSize content
  let buff := bufAlloc size
  let length := buff.length
  let offset := 0
  let position := 0
  let _ := currentPos
  fhRead content buff offset length position

/-- The relative path literal `'./command.txt'` from the source. -/
def commandFileRelPath : String := "./command.txt"

/-- `resolve(dir, rel)` for the relative-path shapes the scripts use:
a `./`-prefixed path is joined onto the directory. -/
def resolvePath (dir rel : String) : String :=
  if prefAt "./".data rel.data then dir ++ "/" ++ ⟨rel.data.drop 2⟩
  else dir ++ "/" ++ rel

/-- `const commandTextFile = resolve(__dirname, './command.txt');`. -/
def commandTextFile (dirname : String) : String :=
  resolvePath dirname commandFileRelPath

/-! ## Import tables of the repository's scripts -/

/-- Every script of the repository with the list of module specifiers it
imports, transcribed from the `import ... from '...'` lines of the
source files (scripts with two concatenated variants list both). -/
def repoImports : List (String × List String) :=
  [ ("buffers/app.js", ["node:buffer"]),
    ("buffers/different-alloc.js", ["node:buffer"]),
    ("buffers/production-example.js", ["node:buffer", "node:perf_hooks"]),
    ("emitters/app.js", ["node:events"]),
    ("emitters/production-example.js", ["node:events", "node:perf_hooks"]),
    ("file-system/app.js",
      ["node:fs", "node:fs/promises", "node:path", "node:url",
       "node:fs", "node:path", "node:url"]),
    ("file-system/fs-types.js", ["node:fs/promises", "node:fs", "node:url", "node:path"]),
    ("file-system/fs-project/app.js",
      ["node:fs/promises", "node:path", "node:url",
       "node:fs/promises", "node:path", "node:url"]),
    ("streams/writable_stream.js", ["node:fs/promises", "node:buffer", "node:os", "node:path"]),
    ("streams/writeMany.js", ["node:fs/promises", "node:buffer", "node:path", "node:url"]),
    ("unnamed/part_000", ["node:fs/promises", "node:path", "node:url"]),
    ("unnamed/part_001", ["node:fs/promises", "node:path", "node:url"]),
    ("unnamed/part_002", ["node:fs/promises", "node:path", "node:url"]),
    ("unnamed/part_003", ["node:fs/promises", "node:path", "node:url"]),
    ("unnamed/part_004", ["node:fs", "node:path", "node:url"]),
    ("unnamed/part_006", ["node:fs", "node:path", "node:url"]),
    ("unnamed/part_009", ["node:buffer"]),
    ("unnamed/part_011", ["node:fs/promises", "node:buffer", "node:path", "node:url"]),
    ("unnamed/part_012", ["node:fs/promises", "node:path", "node:url"]),
    ("unnamed/part_013", ["node:fs/promises", "node:path", "node:url"]) ]

/-- A specifier of a platform built-in module: `'node:'`-prefixed. -/
def isNodeSpecifier (s : String) : Bool :=
  prefAt "node:".data s.data

/-- A specifier that would refer to another file of the repository:
a relative path. -/
def isRelativeSpecifier (s : String) : Bool :=
  prefAt "./".data s.data || prefAt "../".data s.data

/-! ## The write-stream producer loops (`streams/writeMany.js` and
`streams/writable_stream.js`) -/

/-- Observable events of a producer-loop run: a `stream.write` call for
chunk index `i` together with its boolean return, a `stream.end` call
for chunk index `i`, or a `'drain'` event firing. -/
inductive WEv
  | write (i : Nat) (ret : Bool)
  | endw (i : Nat)
  | drain
deriving DecidableEq, Repr

/-- The chunk built for index `i` in `writeMany.js`:
`Buffer.from(` followed by a space, the decimal digits of `i`, a space. -/
def chunkOf (i : Nat) : String :=
  " " ++ toString i ++ " "

/-- The chunk built for index `i` in `writable_stream.js`:
`line=<i>\n`. -/
def pumpChunkOf (i : Nat) : String :=
  "line=" ++ toString i ++ "\n"

/-- `const totalWrites = 1_000_000;` in `streams/writeMany.js`. -/
def totalWrites : Nat := 1000000

/-- `const totalWrites = 50_000;` in `streams/writable_stream.js`. -/
def pumpTotalWrites : Nat := 50000

/-- The body of the producer loop, with structural-recursion fuel: the
fuel is always instantiated with `total - i`, which bounds the number of
remaining iterations. -/
def writeManyGo (total : Nat) (oracle : Nat → Bool) : Nat → Nat → List WEv × Nat
  | 0, i => ([], i)
  | fuel + 1, i =>
    if i < total then
      if i == total - 1 then
        ([WEv.endw i], i + 1)
      else if oracle i then
        let r := writeManyGo total oracle fuel (i + 1)
        (WEv.write i true :: r.fst, r.snd)
      else
        ([WEv.write i false], i + 1)
    else
      ([], i)

/-- One invocation of the producer loop (`writeMany()` / `pump()`) with
`total` the loop bound, `oracle i` the boolean that `stream.write`
returns for chunk `i`, starting from counter value `i`.  Returns the
events of this invocation and the counter value when it returns.
The loop ends the stream on the last chunk, and breaks out of the loop
as soon as a write returns `false`. -/
def writeManyFrom (total : Nat) (oracle : Nat → Bool) (i : Nat) : List WEv × Nat :=
  writeManyGo total oracle (total - i) i

/-- The whole run: the initial `writeMany()` call, then one repeated
invocation per `'drain'` event (`stream.on('drain', () => writeMany())`),
with `d` the number of `'drain'` events the runtime delivers and `i` the
starting counter value. -/
def runTrace (total : Nat) (oracle : Nat → Bool) : Nat → Nat → List WEv
  | 0, i => (writeManyFrom total oracle i).fst
  | d + 1, i =>
    (writeManyFrom total oracle i).fst ++
      WEv.drain :: runTrace total oracle d (writeManyFrom total oracle i).snd

/-- The run of `streams/writeMany.js`: counter starts at `0`,
loop bound `totalWrites`. -/
def runWriteMany (oracle : Nat → Bool) (d : Nat) : List WEv :=
  runTrace totalWrites oracle d 0

/-- The run of `streams/writable_stream.js`. -/
def runPump (oracle : Nat → Bool) (d : Nat) : List WEv :=
  runTrace pumpTotalWrites oracle d 0

/-- The chunk indices handed to the stream (via `write` or `end`),
in trace order. -/
def handedIdx (t : List WEv) : List Nat :=
  t.filterMap fun e =>
    match e with
    | WEv.write i _ => some i
    | WEv.endw i => some i
    | WEv.drain => none

/-- The chunk strings handed to the stream in `writeMany.js` order. -/
def handedChunks (t : List WEv) : List String :=
  (handedIdx t).map chunkOf

/-- A run of `k` successful writes starting at index `i`
(specification-side helper for reasoning about the loop). -/
def wtrue : Nat → Nat → List WEv
  | _, 0 => []
  | i, k + 1 => WEv.write i true :: wtrue (i + 1) k

/-- The counter value after a whole run (initial invocation plus `d`
resumptions). -/
def runFinal (total : Nat) (oracle : Nat → Bool) : Nat → Nat → Nat
  | 0, i => (writeManyFrom total oracle i).snd
  | d + 1, i => runFinal total oracle d (writeManyFrom total oracle i).snd

/-! ## The production event emitter (`emitters/production-example.js`) -/

/-- What a listener does when invoked: return an ordinary value, return a
promise that resolves, return a promise that rejects with an error, or
throw an error synchronously. -/
inductive LBehavior
  | retValue
  | retPromiseOk
  | retPromiseRejected (e : String)
  | throws (e : String)
deriving DecidableEq, Repr

/-- The raw call `listener(...args)`: a synchronous throw propagates as
an exception, anything else is returned. -/
def runListener : LBehavior → Except String LBehavior
  | LBehavior.throws e => Except.error e
  | b => Except.ok b

/-- The wrapped listener installed by `_wrapListeners` (source lines
68–126): run the listener in a `try`; on a synchronous throw the `catch`
emits `'error'`; if the result is a promise, a rejection is routed to
`'error'` by `result.catch`.  The value of the call is the (possibly
empty) list of `'error'` events this listener produces; the wrapper
itself never throws. -/
def wrappedRun (b : LBehavior) : Except String (List String) :=
  match runListener b with
  | Except.error e => Except.ok [e]
  | Except.ok (LBehavior.retPromiseRejected e) => Except.ok [e]
  | Except.ok _ => Except.ok []

/-- `super.emit` over the (wrapped) listeners of one event, in
registration order: if a listener call throws, the exception propagates
out of `emit` and later listeners do not run; otherwise the re-emitted
`'error'` payloads are collected in order. -/
def emitAll : List LBehavior → Except String (List String)
  | [] => Except.ok []
  | b :: rest =>
    match wrappedRun b with
    | Except.error e => Except.error e
    | Except.ok errs =>
      match emitAll rest with
      | Except.error e => Except.error e
      | Except.ok more => Except.ok (errs ++ more)

/-- The errors a list of listener behaviors produces: synchronous throws
and promise rejections, in order. -/
def collectErrs : List LBehavior → List String
  | [] => []
  | LBehavior.throws e :: rest => e :: collectErrs rest
  | LBehavior.retPromiseRejected e :: rest => e :: collectErrs rest
  | _ :: rest => collectErrs rest

/-- The state of a `ProductionEventEmitter` relevant to error handling:
the `'error'` listeners (with `none` standing for the default handler
`_handleError` registered by `_setupErrorHandling`) and the wrapped
listeners for the other events, in registration order. -/
structure PEmitter where
  errorHandlers : List (Option LBehavior)
  listeners : List (String × LBehavior)
deriving DecidableEq, Repr

/-- The constructor: `_setupErrorHandling` always registers the default
`'error'` handler first; no other listeners exist yet. -/
def mkEmitter : PEmitter :=
  { errorHandlers := [none], listeners := [] }

/-- A registration through the wrapped `on()` or `once()`. -/
inductive RegOp
  | on (ev : String) (b : LBehavior)
  | once (ev : String) (b : LBehavior)
deriving DecidableEq, Repr

/-- Apply one registration: the wrapped listener is appended to the
listener list of its event. -/
def applyReg (em : PEmitter) : RegOp → PEmitter
  | RegOp.on ev b =>
    if ev == "error" then { em with errorHandlers := em.errorHandlers ++ [some b] }
    else { em with listeners := em.listeners ++ [(ev, b)] }
  | RegOp.once ev b =>
    if ev == "error" then { em with errorHandlers := em.errorHandlers ++ [some b] }
    else { em with listeners := em.listeners ++ [(ev, b)] }

/-- An emitter built by the constructor followed by any sequence of
`on()` / `once()` registrations. -/
def buildEmitter (ops : List RegOp) : PEmitter :=
  ops.foldl applyReg mkEmitter

/-- The listeners registered for a given event, in order. -/
def listenersFor (em : PEmitter) (ev : String) : List LBehavior :=
  (em.listeners.filter fun p => p.fst == ev).map Prod.snd

/-- `emit(ev)` on the emitter: dispatch to the wrapped listeners of the
event. -/
def emitEvent (em : PEmitter) (ev : String) : Except String (List String) :=
  emitAll (listenersFor em ev)

/-! ## Theorems -/

/-- C5: `Buffer.alloc(N)` yields a buffer of byteLength `N` whose every
byte is zero, and the buffer the change handler allocates has byteLength
equal to the watched file's current size. -/
theorem c5_alloc_zero_filled (n : Nat) (content : List Nat) :
    (bufAlloc n).length = n ∧ (∀ b ∈ bufAlloc n, b = 0) ∧
      (handlerBuffer content).length = statSize content := by
  refine ⟨by simp [bufAlloc], ?_, by simp [handlerBuffer, bufAlloc, statSize]⟩
  intro b hb
  exact List.eq_of_mem_replicate hb

/-- Witness for C5 at the concrete size 4 used by `buffers/app.js`. -/
theorem c5_alloc_zero_filled_witness :
    (bufAlloc 4).length = 4 ∧ (0 : Nat) = 0 :=
  ⟨(c5_alloc_zero_filled 4 []).1, (c5_alloc_zero_filled 4 []).2.1 0 (by decide)⟩

/-- C6: the command file is the single fixed path `command.txt` resolved
against the script's own directory, and every change event re-reads the
whole file from position 0 into a freshly allocated buffer of the file's
current size — the result is the entire content, independently of any
implicit file offset. -/
theorem c6_full_read_fixed_file (dir : String) (content : List Nat) (pos otherPos : Nat) :
    commandTextFile dir = dir ++ "/" ++ "command.txt" ∧
      handlerReadStep content pos = content ∧
      handlerReadStep content pos = handlerReadStep content otherPos := by
  refine ⟨?_, ?_, rfl⟩
  · have hpref : prefAt "./".data commandFileRelPath.data = true := by decide
    have hdrop : (⟨commandFileRelPath.data.drop 2⟩ : String) = "command.txt" := by decide
    simp [commandTextFile, resolvePath, hpref, hdrop]
  · simp [handlerReadStep, fhRead, handlerBuffer, bufAlloc, statSize]

/-- C7: every import specifier of every script of the repository names a
`node:`-prefixed platform built-in, and none is a relative path into the
repository, so no script imports another script. -/
theorem c7_imports_only_node_builtins :
    ∀ p ∈ repoImports, ∀ s ∈ p.snd,
      isNodeSpecifier s = true ∧ isRelativeSpecifier s = false := by
  decide

/-- Witness for C7 on a concrete entry of the import table. -/
theorem c7_imports_only_node_builtins_witness :
    isNodeSpecifier "node:buffer" = true ∧ isRelativeSpecifier "node:buffer" = false :=
  c7_imports_only_node_builtins ("buffers/app.js", ["node:buffer"]) (by decide)
    "node:buffer" (by decide)

/-- `super.emit` over wrapped listeners always returns normally, with
exactly the thrown / rejected errors re-emitted as `'error'` payloads. -/
theorem emitAll_eq_ok (bs : List LBehavior) :
    emitAll bs = Except.ok (collectErrs bs) := by
  induction bs with
  | nil => rfl
  | cons b rest ih =>
    cases b <;> simp [emitAll, wrappedRun, runListener, collectErrs, ih]

/-- `applyReg` never changes the head of the `'error'` listener list. -/
theorem applyReg_head (em : PEmitter) (op : RegOp)
    (h : em.errorHandlers.head? = some none) :
    (applyReg em op).errorHandlers.head? = some none := by
  rcases op with ⟨ev, b⟩ | ⟨ev, b⟩ <;>
  · by_cases hev : (ev == "error") = true
    · cases hem : em.errorHandlers with
      | nil => rw [hem] at h; simp at h
      | cons x xs => rw [hem] at h; simp at h; simp [applyReg, hev, hem, h]
    · simp [applyReg, hev, h]

/-- The default `'error'` handler stays first through any registration
sequence. -/
theorem buildEmitter_default_handler (ops : List RegOp) :
    (buildEmitter ops).errorHandlers.head? = some none := by
  suffices h : ∀ em : PEmitter, em.errorHandlers.head? = some none →
      (ops.foldl applyReg em).errorHandlers.head? = some none from
    h mkEmitter rfl
  induction ops with
  | nil => intro em h; simpa using h
  | cons op rest ih =>
    intro em h
    exact ih (applyReg em op) (applyReg_head em op h)

/-- C10: on an emitter built by any sequence of `on()` / `once()`
registrations, emitting any event returns normally — every synchronous
throw or promise rejection of a listener is caught by the wrapper and
re-emitted as an `'error'` payload — and the default error handler
installed by the constructor is still the first `'error'` listener. -/
theorem c10_emit_never_propagates (ops : List RegOp) (ev : String) :
    emitEvent (buildEmitter ops) ev =
        Except.ok (collectErrs (listenersFor (buildEmitter ops) ev)) ∧
      (buildEmitter ops).errorHandlers.head? = some none :=
  ⟨emitAll_eq_ok _, buildEmitter_default_handler ops⟩

/-- C3 counterexample: for `createFile` the claim fails — on an empty
file system the existence probe of `./test.txt` fails (`fsLookup` is
`none`), yet the handler does mutate the file system: the catch branch
performs the create-open. -/
theorem c3_counterexample_createFile_mutates :
    fsLookup ([] : FS) "./test.txt" = none ∧
      (createFile ([] : FS) "./test.txt").fst ≠ ([] : FS) := by
  decide

/-- C3 (amended): when the existence probe fails, `deleteFile`,
`renameFile` and `addToFile` only log "does not exist" and leave the
file system untouched; `createFile` treats the failed probe as its
success path, creating the file and logging the creation message.  No
error propagates in any case. -/
theorem c3_amended_probe_failure_behavior (fs : FS) (p q c : String)
    (h : fsLookup fs p = none) :
    (deleteFile fs p).fst = fs ∧
      (deleteFile fs p).snd = [s!"The file at path {p} does not exist."] ∧
      (renameFile fs p q).fst = fs ∧
      (renameFile fs p q).snd = [s!"The file at path {p} does not exist."] ∧
      (addToFile fs p c).fst = fs ∧
      (addToFile fs p c).snd = [s!"The file at path {p} does not exist."] ∧
      (createFile fs p).fst = fsSet fs p "" ∧
      (createFile fs p).snd = ["A new file was created successfully."] := by
  simp [deleteFile, renameFile, addToFile, createFile, h]

/-- Witness for the amended C3 on an empty file system. -/
theorem c3_amended_probe_failure_behavior_witness :
    (deleteFile ([] : FS) "./a.txt").fst = ([] : FS) ∧
      (createFile ([] : FS) "./a.txt").fst = [("./a.txt", "")] := by
  have h := c3_amended_probe_failure_behavior ([] : FS) "./a.txt" "./b.txt" "hi" (by decide)
  exact ⟨h.1, by rw [h.2.2.2.2.2.2.1]; decide⟩

/-- C4: each failed validation of the rename and add-to-file blocks —
no space in the text after the phrase, missing `to` / `this content:`
token, or no non-empty text after the token — makes the handler log a
single error message and exit without performing any file operation. -/
theorem c4_validation_only_logs (s : String) :
    (jsIndexOfChar s ' ' = none →
      renameBlock s = ([Action.log "Error: Both old and new file paths are required."], true) ∧
      addBlock s = ([Action.log "Error: Both file path and content are required."], true)) ∧
    (∀ i, jsIndexOfChar s ' ' = some i →
      jsIncludes (jsTrim (jsSubstringFrom s (i + 1))) "to" = false →
      renameBlock s =
        ([Action.log "Error: \"to\" keyword is required between old and new file paths."], true)) ∧
    (∀ i, jsIndexOfChar s ' ' = some i →
      jsIncludes (jsTrim (jsSubstringFrom s (i + 1))) "to" = true →
      (∀ part, (jsSplit (jsTrim (jsSubstringFrom s (i + 1))) "to")[1]? = some part →
        jsTrim part = "") →
      renameBlock s = ([Action.log "Error: New file path is required after \"to\"."], true)) ∧
    (∀ i, jsIndexOfChar s ' ' = some i →
      jsIncludes (jsTrim (jsSubstringFrom s (i + 1))) "this content:" = false →
      addBlock s =
        ([Action.log "Error: \"this content:\" keyword is required before the content."], true)) ∧
    (∀ i, jsIndexOfChar s ' ' = some i →
      jsIncludes (jsTrim (jsSubstringFrom s (i + 1))) "this content:" = true →
      (∀ part, (jsSplit (jsTrim (jsSubstringFrom s (i + 1))) "this content:")[1]? = some part →
        jsTrim part = "") →
      addBlock s = ([Action.log "Error: Content is required after \"this content:\"."], true)) := by
  refine ⟨?_, ?_, ?_, ?_, ?_⟩
  · intro h
    constructor <;> simp [renameBlock, addBlock, h]
  · intro i hi hto
    simp [renameBlock, hi, hto]
  · intro i hi hto hparts
    cases hp : (jsSplit (jsTrim (jsSubstringFrom s (i + 1))) "to")[1]? with
    | none => simp [renameBlock, hi, hto, hp]
    | some part =>
      have := hparts part hp
      simp [renameBlock, hi, hto, hp, this]
  · intro i hi htok
    simp [addBlock, hi, htok]
  · intro i hi htok hparts
    cases hp : (jsSplit (jsTrim (jsSubstringFrom s (i + 1))) "this content:")[1]? with
    | none => simp [addBlock, hi, htok, hp]
    | some part =>
      have := hparts part hp
      simp [addBlock, hi, htok, hp, this]

/-- Witness for C4: `rename the file onlyone` has no space after the
phrase, so the handler only logs the missing-paths error. -/
theorem c4_validation_only_logs_witness :
    renameBlock "onlyone" =
      ([Action.log "Error: Both old and new file paths are required."], true) :=
  ((c4_validation_only_logs "onlyone").1 (by decide)).1

/-- C1: the change handler recognizes exactly the four command phrases by
substring search over the trimmed command text — when none of them occurs
it does nothing — and each matched block receives the argument text
`commandText.substring(PHRASE.length + 1).trim()`. -/
theorem c1_change_handler_dispatch (t : String) :
    ((jsIncludes t CREATE_FILE = false ∧ jsIncludes t DELETE_FILE = false ∧
      jsIncludes t RENAME_FILE = false ∧ jsIncludes t ADD_TO_FILE = false) →
      processCommand t = []) ∧
    (jsIncludes t CREATE_FILE = true →
      Action.op (FsOp.create (argText t CREATE_FILE)) ∈ processCommand t) ∧
    (jsIncludes t DELETE_FILE = true →
      Action.op (FsOp.delete (argText t DELETE_FILE)) ∈ processCommand t) ∧
    (jsIncludes t RENAME_FILE = true →
      ∃ pre post, processCommand t = pre ++ (renameBlock (argText t RENAME_FILE)).fst ++ post) ∧
    ((jsIncludes t ADD_TO_FILE = true ∧
      (jsIncludes t RENAME_FILE = true → (renameBlock (argText t RENAME_FILE)).snd = false)) →
      ∃ pre, processCommand t = pre ++ (addBlock (argText t ADD_TO_FILE)).fst) ∧
    handleChange t = processCommand (jsTrim t) := by
  refine ⟨?_, ?_, ?_, ?_, ?_, rfl⟩
  · rintro ⟨h1, h2, h3, h4⟩
    simp [processCommand, pcCreateActs, pcDeleteActs, pcRenamePart, pcAddActs, h1, h2, h3, h4]
  · intro h
    simp [processCommand, pcCreateActs, h]
  · intro h
    simp [processCommand, pcDeleteActs, h]
  · intro h
    refine ⟨pcCreateActs t ++ pcDeleteActs t, pcAddActs t, ?_⟩
    simp [processCommand, pcRenamePart, h, List.append_assoc]
  · rintro ⟨h4, himp⟩
    have hsnd : (pcRenamePart t).snd = false := by
      by_cases hr : jsIncludes t RENAME_FILE = true
      · simp [pcRenamePart, hr, himp hr]
      · simp [pcRenamePart, hr]
    refine ⟨pcCreateActs t ++ pcDeleteActs t ++ (pcRenamePart t).fst, ?_⟩
    simp [processCommand, pcAddActs, hsnd, h4, List.append_assoc]

/-- Witness for C1: a concrete create command. -/
theorem c1_change_handler_dispatch_witness :
    Action.op (FsOp.create "./a.txt") ∈ processCommand "create a file ./a.txt" := by
  have h := (c1_change_handler_dispatch "create a file ./a.txt").2.1 (by decide)
  have e : argText "create a file ./a.txt" CREATE_FILE = "./a.txt" := by decide
  rwa [e] at h

/-- C9: a command text containing both the create and the delete phrase
performs both operations in one change event, create first, then delete
— at least two file operations fire. -/
theorem c9_multiple_phrases_multiple_ops (t : String)
    (h1 : jsIncludes t CREATE_FILE = true) (h2 : jsIncludes t DELETE_FILE = true) :
    (∃ rest, processCommand t =
      Action.op (FsOp.create (argText t CREATE_FILE)) ::
        Action.op (FsOp.delete (argText t DELETE_FILE)) :: rest) ∧
    2 ≤ (processCommand t).countP (fun a => a.isOp) := by
  have hpc : processCommand t =
      Action.op (FsOp.create (argText t CREATE_FILE)) ::
        Action.op (FsOp.delete (argText t DELETE_FILE)) ::
        ((pcRenamePart t).fst ++ pcAddActs t) := by
    simp [processCommand, pcCreateActs, pcDeleteActs, h1, h2]
  refine ⟨⟨_, hpc⟩, ?_⟩
  rw [hpc]
  simp [List.countP_cons, Action.isOp]

/-- Witness for C9: one event text containing both phrases triggers a
create and then a delete. -/
theorem c9_multiple_phrases_multiple_ops_witness :
    ∃ rest, processCommand "create a file ./a.txt then delete a file ./b.txt" =
      Action.op (FsOp.create "./a.txt then delete a file ./b.txt") ::
        Action.op (FsOp.delete "./a.txt then delete a file ./b.txt") :: rest := by
  obtain ⟨⟨rest, h⟩, -⟩ :=
    c9_multiple_phrases_multiple_ops "create a file ./a.txt then delete a file ./b.txt"
      (by decide) (by decide)
  have e1 : argText "create a file ./a.txt then delete a file ./b.txt" CREATE_FILE =
      "./a.txt then delete a file ./b.txt" := by decide
  have e2 : argText "create a file ./a.txt then delete a file ./b.txt" DELETE_FILE =
      "./a.txt then delete a file ./b.txt" := by decide
  rw [e1, e2] at h
  exact ⟨rest, h⟩

/-! ### Structure of the producer-loop traces -/

/-- One-step unfolding of the producer-loop body. -/
theorem writeManyGo_succ (total : Nat) (oracle : Nat → Bool) (fuel i : Nat) :
    writeManyGo total oracle (fuel + 1) i =
      if i < total then
        if i == total - 1 then
          ([WEv.endw i], i + 1)
        else if oracle i then
          (WEv.write i true :: (writeManyGo total oracle fuel (i + 1)).fst,
            (writeManyGo total oracle fuel (i + 1)).snd)
        else
          ([WEv.write i false], i + 1)
      else
        ([], i) := rfl

/-- Structure of one producer-loop invocation: a run of successful
writes followed by either the final `end` call, a single failed write,
or nothing at all when the counter is already past the loop bound. -/
theorem writeManyGo_struct (total : Nat) (oracle : Nat → Bool) :
    ∀ fuel i, total - i ≤ fuel →
      (∃ k, writeManyGo total oracle fuel i =
          (wtrue i k ++ [WEv.endw (total - 1)], total) ∧ i + k = total - 1 ∧ i < total) ∨
      (∃ k, writeManyGo total oracle fuel i =
          (wtrue i k ++ [WEv.write (i + k) false], i + k + 1) ∧ i + k < total - 1) ∨
      (writeManyGo total oracle fuel i = ([], i) ∧ total ≤ i) := by
  intro fuel
  induction fuel with
  | zero =>
    intro i hle
    exact Or.inr (Or.inr ⟨rfl, by omega⟩)
  | succ fuel ih =>
    intro i hle
    by_cases hlt : i < total
    · by_cases heq : (i == total - 1) = true
      · have hi : i = total - 1 := by simpa using heq
        subst hi
        refine Or.inl ⟨0, ?_, by omega, hlt⟩
        have htot : total - 1 + 1 = total := by omega
        simp [writeManyGo_succ, hlt, wtrue, htot]
      · have hne : i ≠ total - 1 := by simpa using heq
        by_cases ho : oracle i = true
        · rcases ih (i + 1) (by omega) with ⟨k, hk, hik, _⟩ | ⟨k, hk, hik⟩ | ⟨hk, hge⟩
          · refine Or.inl ⟨k + 1, ?_, by omega, hlt⟩
            simp [writeManyGo_succ, hlt, heq, ho, hk, wtrue]
          · refine Or.inr (Or.inl ⟨k + 1, ?_, by omega⟩)
            have hidx : i + 1 + k = i + (k + 1) := by omega
            rw [hidx] at hk
            simp [writeManyGo_succ, hlt, heq, ho, hk, wtrue]
          · omega
        · have ho' : oracle i = false := by simpa using ho
          refine Or.inr (Or.inl ⟨0, ?_, by omega⟩)
          simp [writeManyGo_succ, hlt, heq, ho', wtrue]
    · refine Or.inr (Or.inr ⟨?_, by omega⟩)
      simp [writeManyGo_succ, hlt]

/-- The invocation-level structure theorem. -/
theorem writeManyFrom_struct (total : Nat) (oracle : Nat → Bool) (i : Nat) :
    (∃ k, writeManyFrom total oracle i =
        (wtrue i k ++ [WEv.endw (total - 1)], total) ∧ i + k = total - 1 ∧ i < total) ∨
    (∃ k, writeManyFrom total oracle i =
        (wtrue i k ++ [WEv.write (i + k) false], i + k + 1) ∧ i + k < total - 1) ∨
    (writeManyFrom total oracle i = ([], i) ∧ total ≤ i) :=
  writeManyGo_struct total oracle (total - i) i le_rfl

/-- Every element of a successful-write run is a `write · true`. -/
theorem mem_wtrue : ∀ {k i : Nat} {e : WEv},
    e ∈ wtrue i k → ∃ j, i ≤ j ∧ j < i + k ∧ e = WEv.write j true := by
  intro k
  induction k with
  | zero => intro i e he; simp [wtrue] at he
  | succ k ih =>
    intro i e he
    rw [wtrue] at he
    rcases List.mem_cons.mp he with he | he
    · exact ⟨i, le_rfl, by omega, he⟩
    · obtain ⟨j, hj1, hj2, hj3⟩ := ih he
      exact ⟨j, by omega, by omega, hj3⟩

/-- The handed indices of a successful-write run. -/
theorem handed_wtrue : ∀ (k i : Nat), handedIdx (wtrue i k) = List.range' i k := by
  intro k
  induction k with
  | zero => intro i; rfl
  | succ k ih =>
    intro i
    simp [wtrue, handedIdx, List.filterMap_cons, List.range'_succ]
    simpa [handedIdx] using ih (i + 1)

/-- If a list ending in `x` equals `l₁ ++ y :: l₂` and `y` does not occur
before the end, then `y` is that last element. -/
theorem append_singleton_eq {α : Type} (A l₁ l₂ : List α) (x y : α)
    (h : A ++ [x] = l₁ ++ y :: l₂) (hy : y ∉ A) : l₂ = [] ∧ y = x ∧ l₁ = A := by
  induction l₂ using List.reverseRecOn with
  | nil =>
    obtain ⟨hA, hx⟩ := List.append_inj' h (by simp)
    simp at hx
    exact ⟨rfl, hx.symm, hA.symm⟩
  | append_singleton init z _ =>
    rw [show l₁ ++ y :: (init ++ [z]) = (l₁ ++ y :: init) ++ [z] by simp] at h
    obtain ⟨hA, _⟩ := List.append_inj' h (by simp)
    exact absurd (hA ▸ (by simp : y ∈ l₁ ++ y :: init)) hy

/-- Within one invocation, a failed write is the last event. -/
theorem writeManyFrom_false_last (total : Nat) (oracle : Nat → Bool) (i j : Nat)
    (l₁ l₂ : List WEv)
    (h : (writeManyFrom total oracle i).fst = l₁ ++ WEv.write j false :: l₂) : l₂ = [] := by
  rcases writeManyFrom_struct total oracle i with ⟨k, hs, _, _⟩ | ⟨k, hs, _⟩ | ⟨hs, _⟩
  · have hfst : (writeManyFrom total oracle i).fst = wtrue i k ++ [WEv.endw (total - 1)] := by
      rw [hs]
    rw [hfst] at h
    have hmem : WEv.write j false ∈ wtrue i k ++ [WEv.endw (total - 1)] := by
      rw [h]; simp
    rcases List.mem_append.mp hmem with hm | hm
    · obtain ⟨_, _, _, he⟩ := mem_wtrue hm
      simp at he
    · simp at hm
  · have hfst : (writeManyFrom total oracle i).fst =
        wtrue i k ++ [WEv.write (i + k) false] := by rw [hs]
    rw [hfst] at h
    exact (append_singleton_eq _ _ _ _ _ h (fun hm => by
      obtain ⟨_, _, _, he⟩ := mem_wtrue hm
      simp at he)).1
  · have hfst : (writeManyFrom total oracle i).fst = [] := by rw [hs]
    rw [hfst] at h
    simp at h

/-- Within one invocation, an `end` call is the last event, it carries
index `total - 1`, and afterwards the counter equals `total`. -/
theorem writeManyFrom_endw (total : Nat) (oracle : Nat → Bool) (i j : Nat)
    (l₁ l₂ : List WEv)
    (h : (writeManyFrom total oracle i).fst = l₁ ++ WEv.endw j :: l₂) :
    l₂ = [] ∧ j = total - 1 ∧ (writeManyFrom total oracle i).snd = total := by
  rcases writeManyFrom_struct total oracle i with ⟨k, hs, _, _⟩ | ⟨k, hs, _⟩ | ⟨hs, _⟩
  · have hfst : (writeManyFrom total oracle i).fst = wtrue i k ++ [WEv.endw (total - 1)] := by
      rw [hs]
    rw [hfst] at h
    obtain ⟨h2, hyx, _⟩ := append_singleton_eq _ _ _ _ _ h (fun hm => by
      obtain ⟨_, _, _, he⟩ := mem_wtrue hm
      simp at he)
    refine ⟨h2, by simpa using hyx, by rw [hs]⟩
  · have hfst : (writeManyFrom total oracle i).fst =
        wtrue i k ++ [WEv.write (i + k) false] := by rw [hs]
    rw [hfst] at h
    obtain ⟨_, hyx, _⟩ := append_singleton_eq _ _ _ _ _ h (fun hm => by
      obtain ⟨_, _, _, he⟩ := mem_wtrue hm
      simp at he)
    simp at hyx
  · have hfst : (writeManyFrom total oracle i).fst = [] := by rw [hs]
    rw [hfst] at h
    simp at h

/-- `handedIdx` distributes over append. -/
theorem handedIdx_append (a b : List WEv) :
    handedIdx (a ++ b) = handedIdx a ++ handedIdx b := by
  simp [handedIdx]

/-- A `'drain'` event hands no chunk. -/
theorem handedIdx_drain_cons (t : List WEv) :
    handedIdx (WEv.drain :: t) = handedIdx t := by
  simp [handedIdx, List.filterMap_cons]

/-- Unfolding of `runTrace` at zero drains. -/
theorem runTrace_zero (total : Nat) (oracle : Nat → Bool) (i : Nat) :
    runTrace total oracle 0 i = (writeManyFrom total oracle i).fst := rfl

/-- Unfolding of `runTrace` at a successor drain count. -/
theorem runTrace_succ (total : Nat) (oracle : Nat → Bool) (d i : Nat) :
    runTrace total oracle (d + 1) i =
      (writeManyFrom total oracle i).fst ++
        WEv.drain :: runTrace total oracle d (writeManyFrom total oracle i).snd := rfl

/-- Unfolding of `runFinal` at a successor drain count. -/
theorem runFinal_succ (total : Nat) (oracle : Nat → Bool) (d i : Nat) :
    runFinal total oracle (d + 1) i =
      runFinal total oracle d (writeManyFrom total oracle i).snd := rfl

/-- The chunks of one invocation are the consecutive indices from the
starting counter to the final counter, and the counter never moves
backwards nor past the loop bound. -/
theorem writeManyFrom_handed (total : Nat) (oracle : Nat → Bool) (i : Nat) :
    handedIdx (writeManyFrom total oracle i).fst =
      List.range' i ((writeManyFrom total oracle i).snd - i) ∧
    i ≤ (writeManyFrom total oracle i).snd ∧
    (i ≤ total → (writeManyFrom total oracle i).snd ≤ total) ∧
    (total ≤ i → (writeManyFrom total oracle i).snd = i) := by
  rcases writeManyFrom_struct total oracle i with ⟨k, hs, hk, hlt⟩ | ⟨k, hs, hk⟩ | ⟨hs, hge⟩
  · have hfst : (writeManyFrom total oracle i).fst = wtrue i k ++ [WEv.endw (total - 1)] := by
      rw [hs]
    have hsnd : (writeManyFrom total oracle i).snd = total := by rw [hs]
    rw [hfst, hsnd]
    refine ⟨?_, by omega, fun _ => le_rfl, fun h => by omega⟩
    have hcount : total - i = k + 1 := by omega
    rw [handedIdx_append, handed_wtrue, hcount, List.range'_concat]
    simp [handedIdx, List.filterMap_cons]
    omega
  · have hfst : (writeManyFrom total oracle i).fst =
        wtrue i k ++ [WEv.write (i + k) false] := by rw [hs]
    have hsnd : (writeManyFrom total oracle i).snd = i + k + 1 := by rw [hs]
    rw [hfst, hsnd]
    refine ⟨?_, by omega, fun _ => by omega, fun h => by omega⟩
    have hcount : i + k + 1 - i = k + 1 := by omega
    rw [handedIdx_append, handed_wtrue, hcount, List.range'_concat]
    simp [handedIdx, List.filterMap_cons]
  · have hfst : (writeManyFrom total oracle i).fst = [] := by rw [hs]
    have hsnd : (writeManyFrom total oracle i).snd = i := by rw [hs]
    rw [hfst, hsnd]
    simp [handedIdx]

/-- The chunks of a whole run are the consecutive indices from the
starting counter to the run's final counter, which stays within the
loop bound. -/
theorem runTrace_handed (total : Nat) (oracle : Nat → Bool) :
    ∀ d i,
      handedIdx (runTrace total oracle d i) =
        List.range' i (runFinal total oracle d i - i) ∧
      i ≤ runFinal total oracle d i ∧
      (i ≤ total → runFinal total oracle d i ≤ total) ∧
      (total ≤ i → runFinal total oracle d i = i) := by
  intro d
  induction d with
  | zero => intro i; exact writeManyFrom_handed total oracle i
  | succ d ih =>
    intro i
    obtain ⟨hseg, hle1, hb1, hb2⟩ := writeManyFrom_handed total oracle i
    obtain ⟨hrec, hle2, hc1, hc2⟩ := ih (writeManyFrom total oracle i).snd
    refine ⟨?_, le_trans hle1 hle2, fun h => hc1 (hb1 h), fun h => ?_⟩
    · rw [runTrace_succ, handedIdx_append, handedIdx_drain_cons, hseg, hrec, runFinal_succ]
      have h1 : (writeManyFrom total oracle i).snd =
          i + 1 * ((writeManyFrom total oracle i).snd - i) := by omega
      calc
        List.range' i ((writeManyFrom total oracle i).snd - i) ++
            List.range' (writeManyFrom total oracle i).snd
              (runFinal total oracle d (writeManyFrom total oracle i).snd -
                (writeManyFrom total oracle i).snd)
            = List.range' i ((writeManyFrom total oracle i).snd - i) ++
                List.range' (i + 1 * ((writeManyFrom total oracle i).snd - i))
                  (runFinal total oracle d (writeManyFrom total oracle i).snd -
                    (writeManyFrom total oracle i).snd) := by rw [← h1]
        _ = List.range' i
              ((runFinal total oracle d (writeManyFrom total oracle i).snd -
                  (writeManyFrom total oracle i).snd) +
                ((writeManyFrom total oracle i).snd - i)) := List.range'_append ..
        _ = List.range' i (runFinal total oracle d (writeManyFrom total oracle i).snd - i) := by
              congr 1
              omega
    · rw [runFinal_succ, hb2 h]
      rw [hb2 h] at hc2
      exact hc2 h

/-- No invocation ever passes the final index `total - 1` to `write`. -/
theorem writeManyFrom_no_last_write (total : Nat) (oracle : Nat → Bool) (i : Nat) (r : Bool) :
    WEv.write (total - 1) r ∉ (writeManyFrom total oracle i).fst := by
  rcases writeManyFrom_struct total oracle i with ⟨k, hs, hk, hlt⟩ | ⟨k, hs, hk⟩ | ⟨hs, hge⟩
  · have hfst : (writeManyFrom total oracle i).fst = wtrue i k ++ [WEv.endw (total - 1)] := by
      rw [hs]
    rw [hfst]
    intro hmem
    rcases List.mem_append.mp hmem with hm | hm
    · obtain ⟨j, _, hj2, he⟩ := mem_wtrue hm
      simp at he
      omega
    · simp at hm
  · have hfst : (writeManyFrom total oracle i).fst =
        wtrue i k ++ [WEv.write (i + k) false] := by rw [hs]
    rw [hfst]
    intro hmem
    rcases List.mem_append.mp hmem with hm | hm
    · obtain ⟨j, _, hj2, he⟩ := mem_wtrue hm
      simp at he
      omega
    · simp at hm
      omega
  · have hfst : (writeManyFrom total oracle i).fst = [] := by rw [hs]
    rw [hfst]
    simp

/-- No run ever passes the final index `total - 1` to `write`. -/
theorem runTrace_no_last_write (total : Nat) (oracle : Nat → Bool) :
    ∀ d i (r : Bool), WEv.write (total - 1) r ∉ runTrace total oracle d i := by
  intro d
  induction d with
  | zero => intro i r; exact writeManyFrom_no_last_write total oracle i r
  | succ d ih =>
    intro i r hmem
    rw [runTrace_succ] at hmem
    rcases List.mem_append.mp hmem with hm | hm
    · exact writeManyFrom_no_last_write total oracle i r hm
    · rcases List.mem_cons.mp hm with hm | hm
      · simp at hm
      · exact ih _ r hm

/-- Within one invocation only the final index is passed to `end`. -/
theorem writeManyFrom_endw_only (total : Nat) (oracle : Nat → Bool) (i j : Nat)
    (h : WEv.endw j ∈ (writeManyFrom total oracle i).fst) : j = total - 1 := by
  rcases writeManyFrom_struct total oracle i with ⟨k, hs, _, _⟩ | ⟨k, hs, _⟩ | ⟨hs, _⟩
  · have hfst : (writeManyFrom total oracle i).fst = wtrue i k ++ [WEv.endw (total - 1)] := by
      rw [hs]
    rw [hfst] at h
    rcases List.mem_append.mp h with hm | hm
    · obtain ⟨_, _, _, he⟩ := mem_wtrue hm
      simp at he
    · simpa using hm
  · have hfst : (writeManyFrom total oracle i).fst =
        wtrue i k ++ [WEv.write (i + k) false] := by rw [hs]
    rw [hfst] at h
    rcases List.mem_append.mp h with hm | hm
    · obtain ⟨_, _, _, he⟩ := mem_wtrue hm
      simp at he
    · simp at hm
  · have hfst : (writeManyFrom total oracle i).fst = [] := by rw [hs]
    rw [hfst] at h
    simp at h

/-- Over a whole run only the final index is passed to `end`. -/
theorem runTrace_endw_only (total : Nat) (oracle : Nat → Bool) :
    ∀ d i j, WEv.endw j ∈ runTrace total oracle d i → j = total - 1 := by
  intro d
  induction d with
  | zero => intro i j h; exact writeManyFrom_endw_only total oracle i j h
  | succ d ih =>
    intro i j h
    rw [runTrace_succ] at h
    rcases List.mem_append.mp h with hm | hm
    · exact writeManyFrom_endw_only total oracle i j hm
    · rcases List.mem_cons.mp hm with hm | hm
      · simp at hm
      · exact ih _ j hm

/-- A handed `end` index occurs among the handed indices. -/
theorem endw_mem_handedIdx {j : Nat} {t : List WEv} (h : WEv.endw j ∈ t) :
    j ∈ handedIdx t :=
  List.mem_filterMap.mpr ⟨WEv.endw j, h, rfl⟩

/-- After the `end` call, a run hands no further chunk: no `write` and no
second `end`. -/
theorem runTrace_after_endw (total : Nat) (oracle : Nat → Bool) :
    ∀ d i l₁ j l₂,
      runTrace total oracle d i = l₁ ++ WEv.endw j :: l₂ → handedIdx l₂ = [] := by
  intro d
  induction d with
  | zero =>
    intro i l₁ j l₂ h
    obtain ⟨h2, _, _⟩ := writeManyFrom_endw total oracle i j l₁ l₂ h
    rw [h2]
    rfl
  | succ d ih =>
    intro i l₁ j l₂ h
    rw [runTrace_succ] at h
    rcases List.append_eq_append_iff.mp h with ⟨a', ha1, ha2⟩ | ⟨c', hc1, hc2⟩
    · cases a' with
      | nil => simp at ha2
      | cons a0 a'' =>
        simp at ha2
        exact ih _ a'' j l₂ ha2.2
    · cases c' with
      | nil => simp at hc2
      | cons c0 c'' =>
        simp at hc2
        obtain ⟨hc0, hl₂⟩ := hc2
        rw [← hc0] at hc1
        obtain ⟨hc'', _, hsnd⟩ := writeManyFrom_endw total oracle i j l₁ c'' hc1
        subst hc''
        rw [hl₂]
        simp only [List.nil_append, handedIdx_drain_cons]
        obtain ⟨hh, _, _, hfix⟩ := runTrace_handed total oracle d (writeManyFrom total oracle i).snd
        rw [hh, hfix (by rw [hsnd]), hsnd]
        simp

/-- C2: in the writable-stream producer loops, whenever `stream.write`
returns `false` the loop stops immediately: in the run trace, everything
after a failed write — if anything — starts with the next `'drain'`
event, so no further `write` call happens before `'drain'` fires. -/
theorem c2_backpressure_no_write_before_drain (total : Nat) (oracle : Nat → Bool) :
    ∀ (d i j : Nat) (l₁ l₂ : List WEv),
      runTrace total oracle d i = l₁ ++ WEv.write j false :: l₂ →
      l₂ = [] ∨ l₂.head? = some WEv.drain := by
  intro d
  induction d with
  | zero =>
    intro i j l₁ l₂ h
    exact Or.inl (writeManyFrom_false_last total oracle i j l₁ l₂ h)
  | succ d ih =>
    intro i j l₁ l₂ h
    rw [runTrace_succ] at h
    rcases List.append_eq_append_iff.mp h with ⟨a', ha1, ha2⟩ | ⟨c', hc1, hc2⟩
    · cases a' with
      | nil => simp at ha2
      | cons a0 a'' =>
        simp at ha2
        exact ih _ j a'' l₂ ha2.2
    · cases c' with
      | nil => simp at hc2
      | cons c0 c'' =>
        simp at hc2
        obtain ⟨hc0, hl₂⟩ := hc2
        rw [← hc0] at hc1
        have hc'' := writeManyFrom_false_last total oracle i j l₁ c'' hc1
        subst hc''
        rw [hl₂]
        simp

/-- Witness for C2: a concrete run where every write returns `false`;
after the failed write of chunk 0, the trace continues with `'drain'`. -/
theorem c2_backpressure_no_write_before_drain_witness :
    ([WEv.drain, WEv.write 1 false] : List WEv) = [] ∨
      ([WEv.drain, WEv.write 1 false] : List WEv).head? = some WEv.drain :=
  c2_backpressure_no_write_before_drain 3 (fun _ => false) 1 0 0 []
    [WEv.drain, WEv.write 1 false] (by decide)

/-- C8: over a whole run of the `writeMany` producer loop started at
counter 0, the chunks handed to the stream are exactly the indices
`0, 1, 2, …` up to the run's progress point, each exactly once and in
increasing order (equivalently, the handed chunk strings are the
corresponding `' i '` strings); the final index `total - 1` is never
passed to `write`; only the final index is ever passed to `end`; a run
that reaches `end` has handed every index exactly once; and after `end`
nothing further is handed to the stream.  Instantiating
`total := totalWrites = 1 000 000` gives the `streams/writeMany.js` run,
stated in the last conjunct. -/
theorem c8_writeMany_chunk_accounting (total : Nat) (oracle : Nat → Bool) (d : Nat) :
    (∃ n, n ≤ total ∧ handedIdx (runTrace total oracle d 0) = List.range n ∧
      handedChunks (runTrace total oracle d 0) = (List.range n).map chunkOf) ∧
    (∀ r, WEv.write (total - 1) r ∉ runTrace total oracle d 0) ∧
    (∀ j, WEv.endw j ∈ runTrace total oracle d 0 → j = total - 1) ∧
    (WEv.endw (total - 1) ∈ runTrace total oracle d 0 →
      handedIdx (runTrace total oracle d 0) = List.range total) ∧
    (∀ l₁ j l₂, runTrace total oracle d 0 = l₁ ++ WEv.endw j :: l₂ →
      handedIdx l₂ = []) ∧
    (∀ r, WEv.write (totalWrites - 1) r ∉ runWriteMany oracle d) := by
  obtain ⟨hh, hle, hb1, _⟩ := runTrace_handed total oracle d 0
  have hn : runFinal total oracle d 0 ≤ total := hb1 (Nat.zero_le total)
  have hrange : handedIdx (runTrace total oracle d 0) =
      List.range (runFinal total oracle d 0) := by
    rw [hh, List.range_eq_range', Nat.sub_zero]
  refine ⟨⟨runFinal total oracle d 0, hn, hrange, by rw [handedChunks, hrange]⟩,
    fun r => runTrace_no_last_write total oracle d 0 r,
    fun j => runTrace_endw_only total oracle d 0 j,
    ?_,
    fun l₁ j l₂ => runTrace_after_endw total oracle d 0 l₁ j l₂,
    fun r => runTrace_no_last_write totalWrites oracle d 0 r⟩
  intro hmem
  have hmem' : total - 1 ∈ handedIdx (runTrace total oracle d 0) := endw_mem_handedIdx hmem
  rw [hrange] at hmem'
  have : total - 1 < runFinal total oracle d 0 := List.mem_range.mp hmem'
  have hfin : runFinal total oracle d 0 = total := by omega
  rw [hrange, hfin]

/-- Witness for C8: the smallest completing run — one invocation at loop
bound 1 — hands exactly chunk 0 via `end`, and nothing follows `end`. -/
theorem c8_writeMany_chunk_accounting_witness :
    handedIdx (runTrace 1 (fun _ => true) 0 0) = List.range 1 ∧
      handedIdx ([] : List WEv) = [] := by
  refine ⟨(c8_writeMany_chunk_accounting 1 (fun _ => true) 0).2.2.2.1 (by decide), ?_⟩
  exact (c8_writeMany_chunk_accounting 1 (fun _ => true) 0).2.2.2.2.1 [] 0 [] (by decide)

end NodeInDepth
